import Mathlib

/- Shallow embedding of the GIF decoder in src/imagew-gif.c: the LZW
   dictionary decoder (lzw_init, lzw_clear, lzw_add_to_dict, lzw_emit_code,
   lzw_process_code, lzw_process_bytes), the subblock loop of
   iwgif_read_image, the interlace row ordering of iwgif_make_row_pointers,
   the image descriptor parsing, and the graphics control extension reader.
   Machine integers are modelled as Nat; the C bit operations are modelled
   arithmetically at the places where the operand ranges make this exact. -/

/-- Entry of the LZW code table, struct lzw_tableentry: parent reference,
run length, emitted byte value, cached first byte of the run. -/
structure LzwEntry where
  reference : Nat
  length : Nat
  value : Nat
  firstchar : Nat
deriving DecidableEq

/-- State of struct lzwdeccontext. The fixed array ct[4096] is modelled as
a total function from index to entry; the C code only ever indexes it with
values below 4096. -/
structure LzwState where
  root_codesize : Nat
  current_codesize : Nat
  eoi_flag : Bool
  oldcode : Nat
  pending_code : Nat
  bits_in_pending_code : Nat
  num_root_codes : Nat
  ncodes_since_clear : Nat
  clear_code : Nat
  eoi_code : Nat
  ct_used : Nat
  ct : Nat → LzwEntry

/-- Pointwise update of the modelled code table: the assignment ct[i] = e. -/
def updateFn (f : Nat → LzwEntry) (i : Nat) (e : LzwEntry) : Nat → LzwEntry :=
  fun j => if j = i then e else f j

/-- Models lzw_init: memset to zero, then initialize the root codes. The
value of root code i is the byte (unsigned char)i, hence i % 256, and
1 << n is 2 ^ n. -/
def lzw_init (root_codesize : Nat) : LzwState :=
  { root_codesize := root_codesize
    current_codesize := 0
    eoi_flag := false
    oldcode := 0
    pending_code := 0
    bits_in_pending_code := 0
    num_root_codes := 2 ^ root_codesize
    ncodes_since_clear := 0
    clear_code := 2 ^ root_codesize
    eoi_code := 2 ^ root_codesize + 1
    ct_used := 0
    ct := fun i => if i < 2 ^ root_codesize then ⟨0, 0, i % 256, i % 256⟩ else ⟨0, 0, 0, 0⟩ }

/-- Models lzw_clear. -/
def lzw_clear (d : LzwState) : LzwState :=
  { d with
      ct_used := d.num_root_codes + 2,
      current_codesize := d.root_codesize + 1,
      ncodes_since_clear := 0,
      oldcode := 0 }

/-- Codesize growth positions: the switch cases 7, 15, ..., 2047 in
lzw_add_to_dict. -/
def isCodesizeThreshold (n : Nat) : Bool :=
  n == 7 || n == 15 || n == 31 || n == 63 || n == 127 || n == 255 ||
    n == 511 || n == 1023 || n == 2047

/-- Models lzw_add_to_dict: returns the new position (none models the C
return value -1 for a full table) together with the updated state. -/
def lzw_add_to_dict (d : LzwState) (oldcode : Nat) (val : Nat) : Option Nat × LzwState :=
  if 4096 ≤ d.ct_used then (none, d)
  else
    (some d.ct_used,
     { d with
         ct_used := d.ct_used + 1,
         ct := updateFn d.ct d.ct_used
           ⟨oldcode, (d.ct oldcode).length + 1, val, (d.ct oldcode).firstchar⟩,
         current_codesize :=
           if isCodesizeThreshold d.ct_used then d.current_codesize + 1
           else d.current_codesize })

/-- Joint state of the LZW decoder and of the iwgifreadcontext fields that
the LZW routines touch: the count of pixels decoded so far (pixels_set) and
the log of iwgif_record_pixel calls, as pairs (color index, offset). -/
structure DecodeState where
  lzw : LzwState
  pixels_set : Nat
  writes : List (Nat × Nat)

/-- Parent chain walk of lzw_emit_code; every step logs the record_pixel
call (value, offset = length). The C loop runs until it meets an entry of
length 0; the fuel argument is instantiated with length + 1, the exact
iteration count whenever every parent entry has length one less than its
child (the forest invariant of claim C5). -/
def emitWalk (d : LzwState) : Nat → Nat → List (Nat × Nat)
  | _, 0 => []
  | code, fuel + 1 =>
    ((d.ct code).value, (d.ct code).length) ::
      (if (d.ct code).length < 1 then [] else emitWalk d (d.ct code).reference fuel)

/-- Models lzw_emit_code: logs the record_pixel calls of the chain walk and
advances pixels_set by the length of the code plus one. -/
def lzw_emit_code (s : DecodeState) (first_code : Nat) : DecodeState :=
  { s with
      writes := s.writes ++ emitWalk s.lzw first_code ((s.lzw.ct first_code).length + 1),
      pixels_set := s.pixels_set + (s.lzw.ct first_code).length + 1 }

/-- Final assignment d.oldcode = code of lzw_process_code. -/
def setOldcode (s : DecodeState) (code : Nat) : DecodeState :=
  { s with lzw := { s.lzw with oldcode := code } }

/-- Increment of d.ncodes_since_clear. -/
def bumpNcodes (s : DecodeState) : DecodeState :=
  { s with lzw := { s.lzw with ncodes_since_clear := s.lzw.ncodes_since_clear + 1 } }

/-- Applies lzw_add_to_dict inside a DecodeState, discarding the returned
position (the in table branch of lzw_process_code ignores it). -/
def addStep (s : DecodeState) (oldcode val : Nat) : DecodeState :=
  { s with lzw := (lzw_add_to_dict s.lzw oldcode val).2 }

/-- Branch of lzw_process_code for a code that is not in the table: add the
entry for oldcode plus its first char, then emit the new entry when the add
succeeded. -/
def notInTableStep (s : DecodeState) : DecodeState :=
  match lzw_add_to_dict s.lzw s.lzw.oldcode ((s.lzw.ct s.lzw.oldcode).firstchar) with
  | (some newpos, d2) => lzw_emit_code { s with lzw := d2 } newpos
  | (none, d2) => { s with lzw := d2 }

/-- Models lzw_process_code. The C code increments ncodes_since_clear and
then compares it with 1; here the pre increment value is compared with 0 and
bumpNcodes is applied inside each branch, which yields the same state. The
value none models the return value 0 after iw_seterror with the decode
error message, the only error exit of the function. -/
def lzw_process_code (s : DecodeState) (code : Nat) : Option DecodeState :=
  if code = s.lzw.eoi_code then
    some { s with lzw := { s.lzw with eoi_flag := true } }
  else if code = s.lzw.clear_code then
    some { s with lzw := lzw_clear s.lzw }
  else if s.lzw.ncodes_since_clear = 0 then
    some (setOldcode (lzw_emit_code (bumpNcodes s) code) code)
  else if code < s.lzw.ct_used then
    some (setOldcode
      (addStep (lzw_emit_code (bumpNcodes s) code) s.lzw.oldcode ((s.lzw.ct code).firstchar))
      code)
  else if s.lzw.ct_used ≤ s.lzw.oldcode then
    none
  else
    some (setOldcode (notInTableStep (bumpNcodes s)) code)

/-- Models pending_code |= 1 << bits: bitwise or with a single bit, written
arithmetically. -/
def setBitOr (n k : Nat) : Nat := if n / 2 ^ k % 2 = 1 then n else n + 2 ^ k

/-- The eight bits of a byte, least significant first, as tested by
data[i] & bitmasks[b]. -/
def byteBits (n : Nat) : List Bool := (List.range 8).map (fun b => n / 2 ^ b % 2 == 1)

/-- Per bit loop of lzw_process_bytes: stop consuming once eoi_flag is set;
accumulate the bit; once current_codesize bits are pending, process them as
one code and reset the accumulator. -/
def processBits : DecodeState → List Bool → Option DecodeState
  | s, [] => some s
  | s, bit :: rest =>
    if s.lzw.eoi_flag then some s
    else
      let d := { s.lzw with
                   pending_code :=
                     if bit then setBitOr s.lzw.pending_code s.lzw.bits_in_pending_code
                     else s.lzw.pending_code,
                   bits_in_pending_code := s.lzw.bits_in_pending_code + 1 }
      if d.current_codesize ≤ d.bits_in_pending_code then
        (lzw_process_code { s with lzw := d } d.pending_code).bind
          (fun s1 =>
            processBits
              { s1 with lzw := { s1.lzw with pending_code := 0, bits_in_pending_code := 0 } }
              rest)
      else
        processBits { s with lzw := d } rest

/-- Models lzw_process_bytes. -/
def lzw_process_bytes (s : DecodeState) (data : List Nat) : Option DecodeState :=
  processBits s (data.flatMap byteBits)

/-- Models the subblock loop of iwgif_read_image; the list holds the data
subblocks up to the zero length terminator. After each subblock the loop
stops on eoi_flag or once pixels_set has reached the pixel budget. -/
def iwgif_decode_subblocks (total_npixels : Nat) : DecodeState → List (List Nat) → Option DecodeState
  | s, [] => some s
  | s, blk :: rest =>
    (lzw_process_bytes s blk).bind (fun s1 =>
      if s1.lzw.eoi_flag then some s1
      else if total_npixels ≤ s1.pixels_set then some s1
      else iwgif_decode_subblocks total_npixels s1 rest)

/-- Code level run of the decoder: feed a list of complete codes to
lzw_process_code, propagating the error exit. In the program the codes
arrive through lzw_process_bytes; running at code granularity reaches a
superset of those states. -/
def runCodes : DecodeState → List Nat → Option DecodeState
  | s, [] => some s
  | s, code :: rest => (lzw_process_code s code).bind (fun s1 => runCodes s1 rest)

/-- The LZW state exactly as iwgif_read_image sets it up: lzw_init followed
by lzw_clear. -/
def lzw_initial (root_codesize : Nat) : LzwState := lzw_clear (lzw_init root_codesize)

/-- Initial decode state of an image: fresh LZW state, no pixel decoded. -/
def initState (root_codesize : Nat) : DecodeState :=
  { lzw := lzw_initial root_codesize, pixels_set := 0, writes := [] }

/-- Rows visited by one interlace pass of iwgif_make_row_pointers: the loop
for row = start; row < h; row += step, in increasing order. -/
def passRows (start step h : Nat) : List Nat :=
  (List.range h).filter (fun r => decide (start ≤ r ∧ (r - start) % step = 0))

/-- Mapping from sequential decoded rows to true rows for an interlaced
image of h rows: the four passes of iwgif_make_row_pointers with
(start, step) = (0,8), (4,8), (2,4), (1,2), concatenated in that order. -/
def iwgif_interlace_row_order (h : Nat) : List Nat :=
  passRows 0 8 h ++ passRows 4 8 h ++ passRows 2 4 h ++ passRows 1 2 h

/-- Little endian 16 bit read, iw_read_uint16le: buf[0] | buf[1] << 8; the
two operands have disjoint bits, so the or is addition. -/
def iw_read_uint16le (buf : List Nat) (i : Nat) : Nat :=
  buf.getD i 0 + 256 * buf.getD (i + 1) 0

/-- Geometry fields of iwgifreadcontext that image descriptor parsing
assigns. -/
structure ImageGeom where
  image_left : Nat
  image_top : Nat
  image_width : Nat
  image_height : Nat
deriving DecidableEq

/-- Models lines 553 to 556 of iwgif_read_image verbatim: image_left from
bytes 0..1, image_height from bytes 2..3, image_width from bytes 4..5, then
image_height again from bytes 6..7. The field image_top is never assigned
and keeps its prior value. -/
def iwgif_parse_image_descriptor (prior : ImageGeom) (buf : List Nat) : ImageGeom :=
  let g1 := { prior with image_left := iw_read_uint16le buf 0 }
  let g2 := { g1 with image_height := iw_read_uint16le buf 2 }
  let g3 := { g2 with image_width := iw_read_uint16le buf 4 }
  { g3 with image_height := iw_read_uint16le buf 6 }

/-- Modelled from the spec: the documented image descriptor layout reads
left, top, width, height as four distinct 16 bit little endian fields in
that field order. This definition follows the words of the spec and is
compared against the embedding of the source. -/
def parse_image_descriptor_per_spec (prior : ImageGeom) (buf : List Nat) : ImageGeom :=
  { prior with
      image_left := iw_read_uint16le buf 0,
      image_top := iw_read_uint16le buf 2,
      image_width := iw_read_uint16le buf 4,
      image_height := iw_read_uint16le buf 6 }

/-- Fields of iwgifreadcontext touched by the graphics control extension
reader. Modelled from the spec: struct iw_palette is declared in imagew.h,
which is not part of src/; per the spec the palette table always has 256
allocated slots, so the alpha bytes are modelled as a total function from
index to alpha value. The color components are not touched by these
routines and are omitted. -/
structure GifPalState where
  has_transparency : Nat
  trans_color_index : Nat
  colortable_num_entries : Nat
  alpha : Nat → Nat

/-- Assignment colortable.entry[i].a = 0. -/
def zeroAlpha (f : Nat → Nat) (i : Nat) : Nat → Nat :=
  fun j => if j = i then 0 else f j

/-- The six bytes of a graphics control extension payload as read into
rbuf[0..5]: subblock size byte, four data bytes, terminator byte. -/
structure GceBytes where
  b0 : Nat
  b1 : Nat
  b2 : Nat
  b3 : Nat
  b4 : Nat
  b5 : Nat
deriving DecidableEq

/-- Models iwgif_read_graphics_control_ext on a successfully read six byte
buffer. The local variable retval of the C function is declared without an
initializer; on the two malformed payload exits (size byte not 4,
terminator byte not 0) the function returns whatever value happens to sit
in that stack slot, modelled by the garbage parameter. The transparency
flag is bit 0 of byte 1, and rbuf[1] & 0x01 is b1 % 2. -/
def iwgif_read_graphics_control_ext (garbage : Bool) (st : GifPalState) (e : GceBytes) :
    Bool × GifPalState :=
  if e.b0 ≠ 4 then (garbage, st)
  else if e.b5 ≠ 0 then (garbage, st)
  else if e.b1 % 2 ≠ 0 then
    (true,
     { st with
         has_transparency := e.b1 % 2,
         trans_color_index := e.b4,
         alpha := zeroAlpha st.alpha e.b4 })
  else (true, { st with has_transparency := e.b1 % 2 })

/-- Models iwgif_read_extension: extension type 0xf9 = 249 goes to the
graphics control reader, any other type skips its subblocks, which always
succeeds on a readable stream. -/
def iwgif_read_extension (garbage : Bool) (st : GifPalState) (ext_type : Nat) (payload : GceBytes) :
    Bool × GifPalState :=
  if ext_type = 249 then iwgif_read_graphics_control_ext garbage st payload
  else (true, st)

/-- Several graphics control extensions processed in order before the image
block, as the block loop of iwgif_read_main does. -/
def processGceList (garbage : Bool) (st : GifPalState) (exts : List GceBytes) : GifPalState :=
  exts.foldl (fun acc e => (iwgif_read_graphics_control_ext garbage acc e).2) st

/-- Channel count choice of iwgif_init_screen: 4 bytes per pixel (RGBA)
when has_transparency is set, else 3 (RGB). -/
def iwgif_init_screen_bpp (st : GifPalState) : Nat :=
  if st.has_transparency ≠ 0 then 4 else 3

/-- Forest property of the code table: every committed non root entry
references a strictly smaller index; this makes the parent links acyclic. -/
def dictForest (s : DecodeState) : Prop :=
  ∀ i, i < s.lzw.ct_used → s.lzw.num_root_codes + 2 ≤ i → (s.lzw.ct i).reference < i

instance (s : DecodeState) : Decidable (dictForest s) := by
  unfold dictForest; infer_instance

/-- Side conditions of a well formed LZW code stream at one step: the first
code after a clear must be resident, and a non resident code must be
exactly the next free index of a non full table. Encoders guarantee these
conditions; lzw_process_code does not check them for the first code after a
clear. -/
def goodStepB (s : DecodeState) (c : Nat) : Bool :=
  c == s.lzw.eoi_code || c == s.lzw.clear_code ||
    (if s.lzw.ncodes_since_clear = 0 then decide (c < s.lzw.ct_used)
     else !decide (s.lzw.ct_used ≤ c) || (c == s.lzw.ct_used && decide (c < 4096)))

/-- Well formedness of a whole code list along the run. -/
def goodCodes : DecodeState → List Nat → Bool
  | _, [] => true
  | s, c :: rest =>
    goodStepB s c &&
      (match lzw_process_code s c with
       | none => true
       | some s1 => goodCodes s1 rest)

/-- Invariant used for claim C5: bounded table, valid previous code
register whenever at least one code was seen since the last clear, and the
forest property. -/
def Inv5 (s : DecodeState) : Prop :=
  s.lzw.num_root_codes + 2 ≤ 4096 ∧
  s.lzw.ct_used ≤ 4096 ∧
  (s.lzw.ncodes_since_clear ≠ 0 → s.lzw.oldcode < s.lzw.ct_used) ∧
  dictForest s

/-- Number of codesize growth positions strictly below n. -/
def thrBelow (n : Nat) : Nat :=
  (if 7 < n then 1 else 0) + (if 15 < n then 1 else 0) + (if 31 < n then 1 else 0) +
  (if 63 < n then 1 else 0) + (if 127 < n then 1 else 0) + (if 255 < n then 1 else 0) +
  (if 511 < n then 1 else 0) + (if 1023 < n then 1 else 0) + (if 2047 < n then 1 else 0)

/-- Invariant used for claim C8: the current code size always equals the
root code size plus one plus the number of growth positions passed since
the last clear. -/
def Inv8 (d : LzwState) : Prop :=
  d.num_root_codes = 2 ^ d.root_codesize ∧
  2 ≤ d.root_codesize ∧
  d.root_codesize ≤ 11 ∧
  d.ct_used ≤ 4096 ∧
  d.current_codesize + thrBelow (d.num_root_codes + 2) =
    d.root_codesize + 1 + thrBelow d.ct_used

/-- Claim C1 (code_bug evaluation): on the image descriptor with fields
left=0, top=3, width=2, height=5 the source parsing never assigns
image_top, which keeps its prior value 0, while the documented field
layout yields top=3; the two parsings disagree. -/
theorem C1_descriptor_top_never_read :
    (iwgif_parse_image_descriptor ⟨0, 0, 0, 0⟩ [0, 0, 3, 0, 2, 0, 5, 0, 64, 2]).image_top = 0 ∧
    (parse_image_descriptor_per_spec ⟨0, 0, 0, 0⟩ [0, 0, 3, 0, 2, 0, 5, 0, 64, 2]).image_top = 3 ∧
    iwgif_parse_image_descriptor ⟨0, 0, 0, 0⟩ [0, 0, 3, 0, 2, 0, 5, 0, 64, 2] ≠
      parse_image_descriptor_per_spec ⟨0, 0, 0, 0⟩ [0, 0, 3, 0, 2, 0, 5, 0, 64, 2] := by
  refine ⟨by decide, by decide, by decide⟩

/-- Claim C2 (counterexample): the interlace row order computed by the
four passes of iwgif_make_row_pointers for an 8 row image is not the list
[0,4,2,6,1,5,3,7] stated by the claim. -/
theorem C2_counterexample :
    iwgif_interlace_row_order 8 ≠ [0, 4, 2, 6, 1, 5, 3, 7] := by decide

/-- Claim C2 (amended): for an interlaced image of 8 rows the mapping from
sequential decoded rows to true rows, the concatenation of the four passes
with (start, step) = (0,8), (4,8), (2,4), (1,2), is [0,4,2,6,1,3,5,7]. -/
theorem C2_interlace_row_order_8 :
    iwgif_interlace_row_order 8 = [0, 4, 2, 6, 1, 3, 5, 7] := by decide

/-- Initial extension processing state: all alpha values opaque (255), as
set by the loop at the top of iwgif_read_main, no transparency seen. -/
def gpal0 : GifPalState := ⟨0, 0, 0, fun _ => 255⟩

/-- Claim C3 (code_bug evaluation): on a graphics control extension whose
payload is malformed (size byte 5, or terminator byte 9), the value the
extension reader returns is exactly the garbage that happens to be in the
uninitialized retval slot; with garbage 0 the reader reports failure, which
makes iwgif_read_main abort the decode before the image block. -/
theorem C3_uninitialized_retval :
    iwgif_read_extension false gpal0 249 ⟨5, 0, 0, 0, 0, 0⟩ = (false, gpal0) ∧
    iwgif_read_extension true gpal0 249 ⟨5, 0, 0, 0, 0, 0⟩ = (true, gpal0) ∧
    iwgif_read_extension false gpal0 249 ⟨4, 1, 0, 0, 3, 9⟩ = (false, gpal0) :=
  ⟨rfl, rfl, rfl⟩

/-- Claim C4 (counterexample): on a 1 by 1 image (pixel budget 1 * 1 = 1)
with root code size 2, the single subblock 0x00 encodes two copies of
code 0; the decode succeeds and leaves pixels_set = 2, exceeding the
width times height budget, because the budget is only compared between
subblocks. -/
theorem C4_counterexample :
    (iwgif_decode_subblocks (1 * 1) (initState 2) [[0]]).map (fun t => t.pixels_set) =
      some 2 ∧ ¬ (2 ≤ 1 * 1) := by
  refine ⟨by decide, by decide⟩

/-- Claim C4 (amended): the pixel budget is checked only between
subblocks; decoding stops at the end of the first subblock after which
eoi_flag is set or pixels_set has reached the budget, whichever comes
first, and the remaining subblocks are not processed. -/
theorem C4_budget_checked_between_subblocks (s s2 : DecodeState) (total : Nat)
    (blk : List Nat) (rest : List (List Nat))
    (h1 : lzw_process_bytes s blk = some s2)
    (h2 : s2.lzw.eoi_flag = true ∨ total ≤ s2.pixels_set) :
    iwgif_decode_subblocks total s (blk :: rest) = some s2 := by
  have hu : iwgif_decode_subblocks total s (blk :: rest) =
      (lzw_process_bytes s blk).bind (fun s1 =>
        if s1.lzw.eoi_flag then some s1
        else if total ≤ s1.pixels_set then some s1
        else iwgif_decode_subblocks total s1 rest) := rfl
  rw [hu, h1]
  rcases h2 with h2 | h2
  · simp [h2]
  · by_cases he : s2.lzw.eoi_flag <;> simp [he, h2]

/-- State after feeding the subblock 0x04 0x00 of the C4 counterexample. -/
def c4mid : DecodeState := (lzw_process_bytes (initState 2) [4, 0]).getD (initState 2)

/-- Witness for the amended claim C4 at a concrete input. -/
theorem C4_budget_checked_between_subblocks_witness :
    iwgif_decode_subblocks 1 (initState 2) [[4, 0], [0]] = some c4mid :=
  C4_budget_checked_between_subblocks (initState 2) c4mid 1 [4, 0] [[0]]
    (by rfl) (Or.inr (by decide))

/-- Claim C9: on a well formed graphics control extension whose
transparency flag (bit 0 of byte 1) is set, the reader succeeds, stores the
index byte, and zeroes the alpha of the palette entry at that index,
whatever the current num_entries value is; the index is never compared
against num_entries. -/
theorem C9_transparency_index_unchecked (garbage : Bool) (st : GifPalState)
    (b1 b2 b3 b4 n : Nat) (hflag : b1 % 2 = 1) (hb4 : b4 ≤ 255) :
    (iwgif_read_graphics_control_ext garbage { st with colortable_num_entries := n }
        ⟨4, b1, b2, b3, b4, 0⟩).1 = true ∧
    (iwgif_read_graphics_control_ext garbage { st with colortable_num_entries := n }
        ⟨4, b1, b2, b3, b4, 0⟩).2.alpha b4 = 0 ∧
    (iwgif_read_graphics_control_ext garbage { st with colortable_num_entries := n }
        ⟨4, b1, b2, b3, b4, 0⟩).2.trans_color_index = b4 ∧
    (iwgif_read_graphics_control_ext garbage { st with colortable_num_entries := n }
        ⟨4, b1, b2, b3, b4, 0⟩).2.colortable_num_entries = n := by
  simp [iwgif_read_graphics_control_ext, zeroAlpha, hflag]

/-- Witness for claim C9 at a concrete input: index 200 with a palette of
4 entries. -/
theorem C9_transparency_index_unchecked_witness :
    (iwgif_read_graphics_control_ext false { gpal0 with colortable_num_entries := 4 }
        ⟨4, 1, 0, 0, 200, 0⟩).1 = true ∧
    (iwgif_read_graphics_control_ext false { gpal0 with colortable_num_entries := 4 }
        ⟨4, 1, 0, 0, 200, 0⟩).2.alpha 200 = 0 ∧
    (iwgif_read_graphics_control_ext false { gpal0 with colortable_num_entries := 4 }
        ⟨4, 1, 0, 0, 200, 0⟩).2.trans_color_index = 200 ∧
    (iwgif_read_graphics_control_ext false { gpal0 with colortable_num_entries := 4 }
        ⟨4, 1, 0, 0, 200, 0⟩).2.colortable_num_entries = 4 :=
  C9_transparency_index_unchecked false gpal0 1 0 0 200 4 (by decide) (by decide)

/-- Claim C7: for root code size R in [2,11], the initialization performed
by iwgif_read_image (lzw_init then lzw_clear) sets clear code 2^R, eoi code
2^R + 1 and current code size R + 1; a clear code received in any state
resets ct_used to 2^R + 2 and the code size to R + 1 and clears the
previous code register; and the next non clear, non eoi code is treated as
a first code: emitted directly, stored as previous code, with no
dictionary insertion. -/
theorem C7_clear_and_init (R : Nat) (s : DecodeState) (c : Nat)
    (hR1 : 2 ≤ R) (hR2 : R ≤ 11)
    (h1 : s.lzw.root_codesize = R)
    (h2 : s.lzw.num_root_codes = 2 ^ R)
    (h3 : s.lzw.clear_code = 2 ^ R)
    (h4 : s.lzw.eoi_code = 2 ^ R + 1)
    (hc1 : c ≠ 2 ^ R) (hc2 : c ≠ 2 ^ R + 1) :
    (lzw_initial R).clear_code = 2 ^ R ∧
    (lzw_initial R).eoi_code = 2 ^ R + 1 ∧
    (lzw_initial R).current_codesize = R + 1 ∧
    lzw_process_code s s.lzw.clear_code = some { s with lzw := lzw_clear s.lzw } ∧
    (lzw_clear s.lzw).ct_used = 2 ^ R + 2 ∧
    (lzw_clear s.lzw).current_codesize = R + 1 ∧
    (lzw_clear s.lzw).oldcode = 0 ∧
    (lzw_process_code { s with lzw := lzw_clear s.lzw } c).map (fun t => t.lzw.ct_used) =
      some (2 ^ R + 2) ∧
    (lzw_process_code { s with lzw := lzw_clear s.lzw } c).map (fun t => t.lzw.ct) =
      some (lzw_clear s.lzw).ct ∧
    (lzw_process_code { s with lzw := lzw_clear s.lzw } c).map (fun t => t.lzw.oldcode) =
      some c ∧
    (lzw_process_code { s with lzw := lzw_clear s.lzw } c).map (fun t => t.pixels_set) =
      some (s.pixels_set + ((lzw_clear s.lzw).ct c).length + 1) := by
  have t1 : ¬ (s.lzw.clear_code = s.lzw.eoi_code) := by rw [h3, h4]; omega
  refine ⟨rfl, rfl, rfl, ?_, ?_, ?_, ?_, ?_, ?_, ?_, ?_⟩
  · simp [lzw_process_code, t1]
  · simp [lzw_clear, h2]
  · simp [lzw_clear, h1]
  · simp [lzw_clear]
  all_goals
    simp [lzw_process_code, lzw_clear, setOldcode, lzw_emit_code, bumpNcodes,
      h1, h2, h3, h4, hc1, hc2]

/-- Witness for claim C7 at root code size 2, on the freshly initialized
state, with next code 3. -/
theorem C7_clear_and_init_witness :
    (lzw_initial 2).clear_code = 2 ^ 2 ∧
    (lzw_initial 2).eoi_code = 2 ^ 2 + 1 ∧
    (lzw_initial 2).current_codesize = 2 + 1 ∧
    lzw_process_code (initState 2) ((initState 2).lzw.clear_code) =
      some { initState 2 with lzw := lzw_clear (initState 2).lzw } ∧
    (lzw_clear (initState 2).lzw).ct_used = 2 ^ 2 + 2 ∧
    (lzw_clear (initState 2).lzw).current_codesize = 2 + 1 ∧
    (lzw_clear (initState 2).lzw).oldcode = 0 ∧
    (lzw_process_code { initState 2 with lzw := lzw_clear (initState 2).lzw } 3).map
        (fun t => t.lzw.ct_used) = some (2 ^ 2 + 2) ∧
    (lzw_process_code { initState 2 with lzw := lzw_clear (initState 2).lzw } 3).map
        (fun t => t.lzw.ct) = some (lzw_clear (initState 2).lzw).ct ∧
    (lzw_process_code { initState 2 with lzw := lzw_clear (initState 2).lzw } 3).map
        (fun t => t.lzw.oldcode) = some 3 ∧
    (lzw_process_code { initState 2 with lzw := lzw_clear (initState 2).lzw } 3).map
        (fun t => t.pixels_set) =
      some ((initState 2).pixels_set + ((lzw_clear (initState 2).lzw).ct 3).length + 1) :=
  C7_clear_and_init 2 (initState 2) 3 (by norm_num) (by norm_num) rfl rfl rfl rfl
    (by decide) (by decide)

/-- Claim C6 (counterexample): in the freshly initialized state for root
code size 2 (used count 6, previous code register 0, hence valid), reading
the non resident code 7 does not fail and does not append any entry: the
first code after a clear is emitted directly, so ct_used stays 6 instead
of becoming 7 as the claim demands for every non resident code with a
valid previous code register. -/
theorem C6_counterexample :
    (initState 2).lzw.ct_used = 6 ∧
    (initState 2).lzw.oldcode = 0 ∧
    6 ≤ 7 ∧
    (lzw_process_code (initState 2) 7).map (fun t => t.lzw.ct_used) = some 6 ∧
    ¬ ((lzw_process_code (initState 2) 7).map (fun t => t.lzw.ct_used) = some 7) := by
  refine ⟨by decide, by decide, by decide, by decide, by decide⟩

/-- Claim C6 (amended): when the decoder reads a non resident code
(ct_used ≤ c) that is not an eoi, clear, or first code after a clear, and
the table is not full, then: with an invalid previous code register the
step fails (the decode error), otherwise it appends the entry with parent
oldcode, value and firstchar both firstchar(oldcode) and length
length(oldcode) + 1, emits that new entry (advancing pixels_set by its
length plus one), and stores the read code as previous code. Moreover, for
every state and code, the step fails exactly when the code is neither eoi
nor clear nor a first code, is non resident, and the previous code
register is non resident as well; there is no other error exit. -/
theorem C6_not_resident (s : DecodeState) (c : Nat) (s2 : DecodeState) (c2 : Nat)
    (h0 : s.lzw.ncodes_since_clear ≠ 0)
    (h1 : c ≠ s.lzw.eoi_code) (h2 : c ≠ s.lzw.clear_code)
    (h3 : s.lzw.ct_used ≤ c) (h4 : s.lzw.ct_used < 4096) :
    (s.lzw.ct_used ≤ s.lzw.oldcode → lzw_process_code s c = none) ∧
    (s.lzw.oldcode < s.lzw.ct_used →
      (lzw_process_code s c).map (fun t => t.lzw.ct s.lzw.ct_used) =
        some ⟨s.lzw.oldcode, (s.lzw.ct s.lzw.oldcode).length + 1,
              (s.lzw.ct s.lzw.oldcode).firstchar, (s.lzw.ct s.lzw.oldcode).firstchar⟩ ∧
      (lzw_process_code s c).map (fun t => t.lzw.ct_used) = some (s.lzw.ct_used + 1) ∧
      (lzw_process_code s c).map (fun t => t.lzw.oldcode) = some c ∧
      (lzw_process_code s c).map (fun t => t.pixels_set) =
        some (s.pixels_set + (s.lzw.ct s.lzw.oldcode).length + 2)) ∧
    (lzw_process_code s2 c2 = none ↔
      (c2 ≠ s2.lzw.eoi_code ∧ c2 ≠ s2.lzw.clear_code ∧ s2.lzw.ncodes_since_clear ≠ 0 ∧
       s2.lzw.ct_used ≤ c2 ∧ s2.lzw.ct_used ≤ s2.lzw.oldcode)) := by
  have hlt : ¬ (c < s.lzw.ct_used) := by omega
  refine ⟨?_, ?_, ?_⟩
  · intro holc
    simp [lzw_process_code, h1, h2, h0, hlt, holc]
  · intro holc
    have hold : ¬ (s.lzw.ct_used ≤ s.lzw.oldcode) := by omega
    have hfull : ¬ (4096 ≤ s.lzw.ct_used) := by omega
    refine ⟨?_, ?_, ?_, ?_⟩ <;>
      simp [lzw_process_code, h1, h2, h0, hlt, hold, hfull, notInTableStep,
        lzw_add_to_dict, bumpNcodes, setOldcode, lzw_emit_code, updateFn] <;>
      omega
  · unfold lzw_process_code
    split_ifs with g1 g2 g3 g4 g5
    · exact iff_of_false (by simp) (fun hx => hx.1 g1)
    · exact iff_of_false (by simp) (fun hx => hx.2.1 g2)
    · exact iff_of_false (by simp) (fun hx => hx.2.2.1 g3)
    · refine iff_of_false (by simp) ?_
      rintro ⟨-, -, -, hle, -⟩
      omega
    · exact iff_of_true rfl ⟨g1, g2, g3, by omega, g5⟩
    · refine iff_of_false (by simp) ?_
      rintro ⟨-, -, -, -, hle⟩
      exact g5 hle

/-- State after the first code 0 from the freshly initialized state for
root code size 2: one code seen since clear, previous code 0, ct_used 6. -/
def c6state : DecodeState := (runCodes (initState 2) [0]).getD (initState 2)

/-- Witness for the amended claim C6: reading the non resident code 6 in
c6state appends entry 6 with parent 0 and length 1, emits it, and stores 6
as previous code. -/
theorem C6_not_resident_witness :
    (c6state.lzw.ct_used ≤ c6state.lzw.oldcode → lzw_process_code c6state 6 = none) ∧
    (c6state.lzw.oldcode < c6state.lzw.ct_used →
      (lzw_process_code c6state 6).map (fun t => t.lzw.ct c6state.lzw.ct_used) =
        some ⟨c6state.lzw.oldcode, (c6state.lzw.ct c6state.lzw.oldcode).length + 1,
              (c6state.lzw.ct c6state.lzw.oldcode).firstchar,
              (c6state.lzw.ct c6state.lzw.oldcode).firstchar⟩ ∧
      (lzw_process_code c6state 6).map (fun t => t.lzw.ct_used) =
        some (c6state.lzw.ct_used + 1) ∧
      (lzw_process_code c6state 6).map (fun t => t.lzw.oldcode) = some 6 ∧
      (lzw_process_code c6state 6).map (fun t => t.pixels_set) =
        some (c6state.pixels_set + (c6state.lzw.ct c6state.lzw.oldcode).length + 2)) ∧
    (lzw_process_code c6state 6 = none ↔
      (6 ≠ c6state.lzw.eoi_code ∧ 6 ≠ c6state.lzw.clear_code ∧
       c6state.lzw.ncodes_since_clear ≠ 0 ∧
       c6state.lzw.ct_used ≤ 6 ∧ c6state.lzw.ct_used ≤ c6state.lzw.oldcode)) :=
  C6_not_resident c6state 6 c6state 6 (by decide) (by decide) (by decide)
    (by decide) (by decide)

/-- Stepping over growth position 7. -/
theorem td7 : thrBelow (7 + 1) = thrBelow 7 + 1 := by decide

/-- Stepping over growth position 15. -/
theorem td15 : thrBelow (15 + 1) = thrBelow 15 + 1 := by decide

/-- Stepping over growth position 31. -/
theorem td31 : thrBelow (31 + 1) = thrBelow 31 + 1 := by decide

/-- Stepping over growth position 63. -/
theorem td63 : thrBelow (63 + 1) = thrBelow 63 + 1 := by decide

/-- Stepping over growth position 127. -/
theorem td127 : thrBelow (127 + 1) = thrBelow 127 + 1 := by decide

/-- Stepping over growth position 255. -/
theorem td255 : thrBelow (255 + 1) = thrBelow 255 + 1 := by decide

/-- Stepping over growth position 511. -/
theorem td511 : thrBelow (511 + 1) = thrBelow 511 + 1 := by decide

/-- Stepping over growth position 1023. -/
theorem td1023 : thrBelow (1023 + 1) = thrBelow 1023 + 1 := by decide

/-- Stepping over growth position 2047. -/
theorem td2047 : thrBelow (2047 + 1) = thrBelow 2047 + 1 := by decide

/-- A summand of thrBelow is unchanged by a successor step away from its
growth position. -/
theorem ite_lt_succ (t u : Nat) (h : u ≠ t) :
    (if t < u + 1 then (1 : Nat) else 0) = if t < u then 1 else 0 := by
  by_cases h1 : t < u
  · rw [if_pos (Nat.lt_succ_of_lt h1), if_pos h1]
  · rw [if_neg ?_, if_neg h1]
    intro hx
    rcases Nat.lt_or_eq_of_le (Nat.lt_succ_iff.mp hx) with h2 | h2
    · exact h1 h2
    · exact h h2.symm

/-- One step of the growth position count: appending at position u raises
the count exactly when u is a growth position. -/
theorem thrBelow_succ (u : Nat) :
    thrBelow (u + 1) = thrBelow u + (if isCodesizeThreshold u then 1 else 0) := by
  by_cases h : isCodesizeThreshold u = true
  · rw [if_pos h]
    simp only [isCodesizeThreshold, Bool.or_eq_true, beq_iff_eq] at h
    exact h.elim
      (fun h => h.elim
        (fun h => h.elim
          (fun h => h.elim
            (fun h => h.elim
              (fun h => h.elim
                (fun h => h.elim
                  (fun h => h.elim (fun h => h ▸ td7) (fun h => h ▸ td15))
                  (fun h => h ▸ td31))
                (fun h => h ▸ td63))
              (fun h => h ▸ td127))
            (fun h => h ▸ td255))
          (fun h => h ▸ td511))
        (fun h => h ▸ td1023))
      (fun h => h ▸ td2047)
  · rw [if_neg h, Nat.add_zero]
    simp only [isCodesizeThreshold, Bool.or_eq_true, beq_iff_eq] at h
    push_neg at h
    obtain ⟨⟨⟨⟨⟨⟨⟨⟨n7, n15⟩, n31⟩, n63⟩, n127⟩, n255⟩, n511⟩, n1023⟩, n2047⟩ := h
    unfold thrBelow
    rw [ite_lt_succ 7 u n7, ite_lt_succ 15 u n15, ite_lt_succ 31 u n31,
      ite_lt_succ 63 u n63, ite_lt_succ 127 u n127, ite_lt_succ 255 u n255,
      ite_lt_succ 511 u n511, ite_lt_succ 1023 u n1023, ite_lt_succ 2047 u n2047]
    rfl

/-- All nine growth positions lie below a full table. -/
theorem thrBelow_4096 : thrBelow 4096 = 9 := by decide

/-- Growth positions below the table size right after a clear. -/
theorem thrBelow_init (R : Nat) (h2 : 2 ≤ R) (h11 : R ≤ 11) :
    thrBelow (2 ^ R + 2) = R - 2 := by
  interval_cases R <;> decide

/-- lzw_add_to_dict preserves the C8 invariant. -/
theorem lzw_add_Inv8 (d : LzwState) (oc val : Nat) (h : Inv8 d) :
    Inv8 (lzw_add_to_dict d oc val).2 := by
  obtain ⟨ha, hb, hc, hd, he⟩ := h
  by_cases hf : 4096 ≤ d.ct_used
  · unfold lzw_add_to_dict
    rw [if_pos hf]
    exact ⟨ha, hb, hc, hd, he⟩
  · unfold lzw_add_to_dict
    rw [if_neg hf]
    refine ⟨ha, hb, hc, ?_, ?_⟩
    · show d.ct_used + 1 ≤ 4096
      omega
    · show (if isCodesizeThreshold d.ct_used then d.current_codesize + 1
            else d.current_codesize) + thrBelow (d.num_root_codes + 2) =
          d.root_codesize + 1 + thrBelow (d.ct_used + 1)
      rw [thrBelow_succ d.ct_used]
      by_cases ht : isCodesizeThreshold d.ct_used = true <;> simp [ht] <;> omega

/-- lzw_clear restores the C8 invariant. -/
theorem lzw_clear_Inv8 (d : LzwState) (h : Inv8 d) : Inv8 (lzw_clear d) := by
  obtain ⟨ha, hb, hc, hd, he⟩ := h
  have hp : 2 ^ d.root_codesize ≤ 2 ^ 11 := Nat.pow_le_pow_right (by norm_num) hc
  have h2048 : (2 : Nat) ^ 11 = 2048 := by norm_num
  refine ⟨ha, hb, hc, ?_, rfl⟩
  show d.num_root_codes + 2 ≤ 4096
  omega

/-- Every successful lzw_process_code step preserves the C8 invariant. -/
theorem processCode_Inv8 (s s2 : DecodeState) (c : Nat)
    (hp : lzw_process_code s c = some s2) (h : Inv8 s.lzw) : Inv8 s2.lzw := by
  unfold lzw_process_code at hp
  split_ifs at hp with g1 g2 g3 g4 g5
  · injection hp with hp
    subst hp
    exact h
  · injection hp with hp
    subst hp
    exact lzw_clear_Inv8 s.lzw h
  · injection hp with hp
    subst hp
    exact h
  · injection hp with hp
    subst hp
    exact lzw_add_Inv8 { s.lzw with ncodes_since_clear := s.lzw.ncodes_since_clear + 1 }
      s.lzw.oldcode ((s.lzw.ct c).firstchar) h
  · injection hp with hp
    subst hp
    have hi := lzw_add_Inv8 (bumpNcodes s).lzw (bumpNcodes s).lzw.oldcode
      (((bumpNcodes s).lzw.ct (bumpNcodes s).lzw.oldcode).firstchar) h
    rcases hadd : lzw_add_to_dict (bumpNcodes s).lzw (bumpNcodes s).lzw.oldcode
        (((bumpNcodes s).lzw.ct (bumpNcodes s).lzw.oldcode).firstchar) with ⟨pos, d2⟩
    rw [hadd] at hi
    cases pos with
    | none =>
      simp only [notInTableStep, hadd, setOldcode]
      exact hi
    | some np =>
      simp only [notInTableStep, hadd, setOldcode, lzw_emit_code]
      exact hi

/-- Running any code list preserves the C8 invariant. -/
theorem runCodes_Inv8 : ∀ (codes : List Nat) (s s2 : DecodeState),
    runCodes s codes = some s2 → Inv8 s.lzw → Inv8 s2.lzw := by
  intro codes
  induction codes with
  | nil =>
    intro s s2 h hI
    simp only [runCodes, Option.some.injEq] at h
    subst h
    exact hI
  | cons c rest ih =>
    intro s s2 h hI
    cases hp : lzw_process_code s c with
    | none => simp [runCodes, hp] at h
    | some s1 =>
      simp only [runCodes, hp, Option.some_bind] at h
      exact ih s1 s2 h (processCode_Inv8 s s1 c hp hI)

/-- The freshly initialized state satisfies the C8 invariant. -/
theorem initState_Inv8 (R : Nat) (h2 : 2 ≤ R) (h11 : R ≤ 11) : Inv8 (initState R).lzw := by
  have hp : 2 ^ R ≤ 2 ^ 11 := Nat.pow_le_pow_right (by norm_num) h11
  have h2048 : (2 : Nat) ^ 11 = 2048 := by norm_num
  refine ⟨rfl, h2, h11, ?_, rfl⟩
  show 2 ^ R + 2 ≤ 4096
  omega

/-- A growth position is exactly an append that brings the used count to
one of 8, 16, 32, 64, 128, 256, 512, 1024, 2048. -/
theorem isCodesizeThreshold_iff (u : Nat) :
    isCodesizeThreshold u = true ↔
      (u + 1 = 8 ∨ u + 1 = 16 ∨ u + 1 = 32 ∨ u + 1 = 64 ∨ u + 1 = 128 ∨ u + 1 = 256 ∨
       u + 1 = 512 ∨ u + 1 = 1024 ∨ u + 1 = 2048) := by
  have ec : ∀ k : Nat, (u = k) ↔ (u + 1 = k + 1) :=
    fun k => ⟨fun hx => by rw [hx], fun hx => Nat.add_right_cancel hx⟩
  simp only [isCodesizeThreshold, Bool.or_eq_true, beq_iff_eq, or_assoc]
  exact or_congr (ec 7) (or_congr (ec 15) (or_congr (ec 31) (or_congr (ec 63)
    (or_congr (ec 127) (or_congr (ec 255) (or_congr (ec 511)
      (or_congr (ec 1023) (ec 2047))))))))

/-- Claim C8: in every state reachable from initialization with root code
size R in [2,11], an append to a non full table increments ct_used and
raises the code size by one exactly when the new used count is one of
8, 16, 32, 64, 128, 256, 512, 1024, 2048, and leaves it unchanged at every
other append; once 4096 entries are used, lzw_add_to_dict adds nothing and
changes nothing, the code size is frozen at 12 bits, and processing a
resident code still succeeds without changing ct_used or the code size. -/
theorem C8_codesize_growth (R : Nat) (codes : List Nat) (s : DecodeState) (oldc val c : Nat)
    (hR1 : 2 ≤ R) (hR2 : R ≤ 11)
    (hrun : runCodes (initState R) codes = some s) :
    (s.lzw.ct_used < 4096 →
      (lzw_add_to_dict s.lzw oldc val).2.ct_used = s.lzw.ct_used + 1 ∧
      (lzw_add_to_dict s.lzw oldc val).2.current_codesize =
        s.lzw.current_codesize +
          (if s.lzw.ct_used + 1 = 8 ∨ s.lzw.ct_used + 1 = 16 ∨ s.lzw.ct_used + 1 = 32 ∨
              s.lzw.ct_used + 1 = 64 ∨ s.lzw.ct_used + 1 = 128 ∨ s.lzw.ct_used + 1 = 256 ∨
              s.lzw.ct_used + 1 = 512 ∨ s.lzw.ct_used + 1 = 1024 ∨ s.lzw.ct_used + 1 = 2048
           then 1 else 0)) ∧
    (4096 ≤ s.lzw.ct_used →
      lzw_add_to_dict s.lzw oldc val = (none, s.lzw) ∧
      s.lzw.current_codesize = 12 ∧
      (c < s.lzw.ct_used → c ≠ s.lzw.clear_code → c ≠ s.lzw.eoi_code →
        (lzw_process_code s c).map (fun t => (t.lzw.ct_used, t.lzw.current_codesize)) =
          some (s.lzw.ct_used, s.lzw.current_codesize))) := by
  obtain ⟨ha, hb, hc, hd, he⟩ :=
    runCodes_Inv8 codes (initState R) s hrun (initState_Inv8 R hR1 hR2)
  constructor
  · intro hlt
    have hfull : ¬ (4096 ≤ s.lzw.ct_used) := by omega
    have hiff := isCodesizeThreshold_iff s.lzw.ct_used
    unfold lzw_add_to_dict
    rw [if_neg hfull]
    refine ⟨rfl, ?_⟩
    show (if isCodesizeThreshold s.lzw.ct_used then s.lzw.current_codesize + 1
          else s.lzw.current_codesize) = _
    by_cases ht : isCodesizeThreshold s.lzw.ct_used = true
    · rw [if_pos ht, if_pos (hiff.mp ht)]
    · rw [if_neg ht, if_neg (fun hx => ht (hiff.mpr hx))]
      omega
  · intro hge
    have h46 : s.lzw.ct_used = 4096 := by omega
    refine ⟨?_, ?_, ?_⟩
    · unfold lzw_add_to_dict
      rw [if_pos hge]
    · rw [h46, thrBelow_4096, ha, thrBelow_init s.lzw.root_codesize hb hc] at he
      omega
    · intro hcl hne1 hne2
      by_cases hn : s.lzw.ncodes_since_clear = 0
      · simp [lzw_process_code, hne1, hne2, hn, setOldcode, lzw_emit_code, bumpNcodes]
      · simp [lzw_process_code, hne1, hne2, hn, hcl, setOldcode, addStep, lzw_add_to_dict,
          hge, lzw_emit_code, bumpNcodes]

/-- Witness for claim C8 at root code size 2 on the freshly initialized
state (empty code list). -/
theorem C8_codesize_growth_witness :
    ((initState 2).lzw.ct_used < 4096 →
      (lzw_add_to_dict (initState 2).lzw 0 0).2.ct_used = (initState 2).lzw.ct_used + 1 ∧
      (lzw_add_to_dict (initState 2).lzw 0 0).2.current_codesize =
        (initState 2).lzw.current_codesize +
          (if (initState 2).lzw.ct_used + 1 = 8 ∨ (initState 2).lzw.ct_used + 1 = 16 ∨
              (initState 2).lzw.ct_used + 1 = 32 ∨ (initState 2).lzw.ct_used + 1 = 64 ∨
              (initState 2).lzw.ct_used + 1 = 128 ∨ (initState 2).lzw.ct_used + 1 = 256 ∨
              (initState 2).lzw.ct_used + 1 = 512 ∨ (initState 2).lzw.ct_used + 1 = 1024 ∨
              (initState 2).lzw.ct_used + 1 = 2048
           then 1 else 0)) ∧
    (4096 ≤ (initState 2).lzw.ct_used →
      lzw_add_to_dict (initState 2).lzw 0 0 = (none, (initState 2).lzw) ∧
      (initState 2).lzw.current_codesize = 12 ∧
      (0 < (initState 2).lzw.ct_used → 0 ≠ (initState 2).lzw.clear_code →
        0 ≠ (initState 2).lzw.eoi_code →
        (lzw_process_code (initState 2) 0).map
            (fun t => (t.lzw.ct_used, t.lzw.current_codesize)) =
          some ((initState 2).lzw.ct_used, (initState 2).lzw.current_codesize))) :=
  C8_codesize_growth 2 [] (initState 2) 0 0 0 (by norm_num) (by norm_num) rfl

/-- A good first code after a clear is resident. -/
theorem goodStep_first (s : DecodeState) (c : Nat) (hg : goodStepB s c = true)
    (g1 : ¬ c = s.lzw.eoi_code) (g2 : ¬ c = s.lzw.clear_code)
    (g3 : s.lzw.ncodes_since_clear = 0) : c < s.lzw.ct_used := by
  unfold goodStepB at hg
  rw [if_pos g3] at hg
  simp only [Bool.or_eq_true, beq_iff_eq, decide_eq_true_eq] at hg
  rcases hg with (h | h) | h
  · exact absurd h g1
  · exact absurd h g2
  · exact h

/-- A good non resident code is exactly the next free index of a non full
table. -/
theorem goodStep_notResident (s : DecodeState) (c : Nat) (hg : goodStepB s c = true)
    (g1 : ¬ c = s.lzw.eoi_code) (g2 : ¬ c = s.lzw.clear_code)
    (g3 : ¬ s.lzw.ncodes_since_clear = 0) (g4 : s.lzw.ct_used ≤ c) :
    c = s.lzw.ct_used ∧ c < 4096 := by
  unfold goodStepB at hg
  rw [if_neg g3] at hg
  simp only [Bool.or_eq_true, beq_iff_eq, Bool.not_eq_true', decide_eq_false_iff_not,
    Bool.and_eq_true, decide_eq_true_eq] at hg
  rcases hg with (h | h) | h | h
  · exact absurd h g1
  · exact absurd h g2
  · exact absurd g4 h
  · exact h

/-- Every good and successful lzw_process_code step preserves the C5
invariant. -/
theorem processCode_Inv5 (s s2 : DecodeState) (c : Nat)
    (hp : lzw_process_code s c = some s2) (hg : goodStepB s c = true) (h : Inv5 s) : Inv5 s2 := by
  obtain ⟨hb1, hb2, hb3, hb4⟩ := h
  unfold lzw_process_code at hp
  split_ifs at hp with g1 g2 g3 g4 g5
  · injection hp with hp
    subst hp
    exact ⟨hb1, hb2, hb3, hb4⟩
  · injection hp with hp
    subst hp
    refine ⟨hb1, hb1, ?_, ?_⟩
    · intro hx
      exact absurd rfl hx
    · intro i hi1 hi2
      have hi1n : i < s.lzw.num_root_codes + 2 := hi1
      have hi2n : s.lzw.num_root_codes + 2 ≤ i := hi2
      omega
  · injection hp with hp
    subst hp
    have hcc : c < s.lzw.ct_used := goodStep_first s c hg g1 g2 g3
    exact ⟨hb1, hb2, fun _ => hcc, hb4⟩
  · injection hp with hp
    subst hp
    have hold : s.lzw.oldcode < s.lzw.ct_used := hb3 g3
    dsimp only [setOldcode, addStep, lzw_emit_code, bumpNcodes, lzw_add_to_dict]
    by_cases hfull : 4096 ≤ s.lzw.ct_used
    · rw [if_pos hfull]
      exact ⟨hb1, hb2, fun _ => g4, hb4⟩
    · rw [if_neg hfull]
      refine ⟨hb1, ?_, fun _ => ?_, ?_⟩
      · show s.lzw.ct_used + 1 ≤ 4096
        omega
      · show c < s.lzw.ct_used + 1
        omega
      · intro i hi1 hi2
        have hi1n : i < s.lzw.ct_used + 1 := hi1
        have hi2n : s.lzw.num_root_codes + 2 ≤ i := hi2
        show (updateFn s.lzw.ct s.lzw.ct_used
            ⟨s.lzw.oldcode, (s.lzw.ct s.lzw.oldcode).length + 1,
             (s.lzw.ct c).firstchar, (s.lzw.ct s.lzw.oldcode).firstchar⟩ i).reference < i
        unfold updateFn
        by_cases hiu : i = s.lzw.ct_used
        · rw [hiu, if_pos rfl]
          show s.lzw.oldcode < s.lzw.ct_used
          omega
        · rw [if_neg hiu]
          exact hb4 i (by omega) hi2n
  · injection hp with hp
    subst hp
    have hold : s.lzw.oldcode < s.lzw.ct_used := by omega
    obtain ⟨hceq, hc4096⟩ := goodStep_notResident s c hg g1 g2 g3 (by omega)
    have hfull : ¬ (4096 ≤ s.lzw.ct_used) := by omega
    dsimp only [setOldcode, notInTableStep, bumpNcodes, lzw_add_to_dict]
    rw [if_neg hfull]
    dsimp only [lzw_emit_code]
    refine ⟨hb1, ?_, fun _ => ?_, ?_⟩
    · show s.lzw.ct_used + 1 ≤ 4096
      omega
    · show c < s.lzw.ct_used + 1
      omega
    · intro i hi1 hi2
      have hi1n : i < s.lzw.ct_used + 1 := hi1
      have hi2n : s.lzw.num_root_codes + 2 ≤ i := hi2
      show (updateFn s.lzw.ct s.lzw.ct_used
          ⟨s.lzw.oldcode, (s.lzw.ct s.lzw.oldcode).length + 1,
           (s.lzw.ct s.lzw.oldcode).firstchar, (s.lzw.ct s.lzw.oldcode).firstchar⟩ i).reference < i
      unfold updateFn
      by_cases hiu : i = s.lzw.ct_used
      · rw [hiu, if_pos rfl]
        show s.lzw.oldcode < s.lzw.ct_used
        omega
      · rw [if_neg hiu]
        exact hb4 i (by omega) hi2n

/-- Running a good code list preserves the C5 invariant. -/
theorem runCodes_Inv5 : ∀ (codes : List Nat) (s s2 : DecodeState),
    runCodes s codes = some s2 → goodCodes s codes = true → Inv5 s → Inv5 s2 := by
  intro codes
  induction codes with
  | nil =>
    intro s s2 h hg hI
    simp only [runCodes, Option.some.injEq] at h
    subst h
    exact hI
  | cons c rest ih =>
    intro s s2 h hg hI
    cases hp : lzw_process_code s c with
    | none => simp [runCodes, hp] at h
    | some s1 =>
      simp only [runCodes, hp, Option.some_bind] at h
      have hgg : goodStepB s c = true ∧ goodCodes s1 rest = true := by
        simpa [goodCodes, hp, Bool.and_eq_true] using hg
      exact ih s1 s2 h hgg.2 (processCode_Inv5 s s1 c hp hgg.1 hI)

/-- The freshly initialized state satisfies the C5 invariant. -/
theorem initState_Inv5 (R : Nat) (h11 : R ≤ 11) : Inv5 (initState R) := by
  have hp : 2 ^ R ≤ 2 ^ 11 := Nat.pow_le_pow_right (by norm_num) h11
  have h2048 : (2 : Nat) ^ 11 = 2048 := by norm_num
  refine ⟨?_, ?_, ?_, ?_⟩
  · show 2 ^ R + 2 ≤ 4096
    omega
  · show 2 ^ R + 2 ≤ 4096
    omega
  · intro hx
    exact absurd rfl hx
  · intro i hi1 hi2
    have hi1n : i < 2 ^ R + 2 := hi1
    have hi2n : 2 ^ R + 2 ≤ i := hi2
    omega

/-- Claim C5 (counterexample): with root code size 2, the code stream
[7, 0] is accepted by the decoder (code 7, not resident, is the first code
after the implicit clear of initialization and is emitted unvalidated); the
following resident code 0 appends entry 6 with parent reference 7, an
uncommitted larger index, so the committed table is not a forest of
backward references. -/
theorem C5_counterexample :
    (runCodes (initState 2) [7, 0]).isSome = true ∧
    ¬ dictForest ((runCodes (initState 2) [7, 0]).getD (initState 2)) := by
  refine ⟨by decide, by decide⟩

/-- Claim C5 (amended): along any well formed code stream, one in which
every first code after a clear is resident and every non resident code is
exactly the next free index of a non full table, each appended dictionary
entry references a strictly smaller, already committed index, so the
parent links form a forest with no cycles; and the number of used entries
never exceeds 4096. -/
theorem C5_dictionary_forest (R : Nat) (codes : List Nat) (s : DecodeState)
    (hR1 : 2 ≤ R) (hR2 : R ≤ 11)
    (hgood : goodCodes (initState R) codes = true)
    (hrun : runCodes (initState R) codes = some s) :
    dictForest s ∧ s.lzw.ct_used ≤ 4096 := by
  have h := runCodes_Inv5 codes (initState R) s hrun hgood (initState_Inv5 R hR2)
  exact ⟨h.2.2.2, h.2.1⟩

/-- Final state of the good run [0, 1, 2] from the freshly initialized
state for root code size 2. -/
def c5end : DecodeState := (runCodes (initState 2) [0, 1, 2]).getD (initState 2)

/-- Witness for the amended claim C5 on the concrete good code stream
[0, 1, 2]. -/
theorem C5_dictionary_forest_witness :
    dictForest c5end ∧ c5end.lzw.ct_used ≤ 4096 :=
  C5_dictionary_forest 2 [0, 1, 2] c5end (by norm_num) (by norm_num) (by decide) (by rfl)

/-- The last element of a list of extension payloads (zero payload for the
empty list, which the claims never use). -/
def lastGce : List GceBytes → GceBytes
  | [] => ⟨0, 0, 0, 0, 0, 0⟩
  | [e] => e
  | _ :: e2 :: rest => lastGce (e2 :: rest)

/-- The extension reader never raises a zeroed alpha byte back. -/
theorem gce_alpha_mono (g : Bool) (e : GceBytes) (st : GifPalState) (i : Nat)
    (h : st.alpha i = 0) : (iwgif_read_graphics_control_ext g st e).2.alpha i = 0 := by
  unfold iwgif_read_graphics_control_ext
  split_ifs with h0 h5 h1
  · exact h
  · exact h
  · show zeroAlpha st.alpha e.b4 i = 0
    unfold zeroAlpha
    by_cases hj : i = e.b4
    · rw [if_pos hj]
    · rw [if_neg hj]
      exact h
  · exact h

/-- Processing any extension sequence never raises a zeroed alpha byte. -/
theorem processGceList_alpha_mono (g : Bool) : ∀ (exts : List GceBytes) (st : GifPalState)
    (i : Nat), st.alpha i = 0 → (processGceList g st exts).alpha i = 0 := by
  intro exts
  induction exts with
  | nil => intro st i h; exact h
  | cons e rest ih =>
    intro st i h
    show (processGceList g (iwgif_read_graphics_control_ext g st e).2 rest).alpha i = 0
    exact ih _ i (gce_alpha_mono g e st i h)

/-- On a well formed payload the reader stores bit 0 of byte 1 as the
transparency flag, whether set or clear. -/
theorem gce_wf_ht (g : Bool) (e : GceBytes) (st : GifPalState)
    (h0 : e.b0 = 4) (h5 : e.b5 = 0) :
    (iwgif_read_graphics_control_ext g st e).2.has_transparency = e.b1 % 2 := by
  unfold iwgif_read_graphics_control_ext
  rw [if_neg (by omega : ¬ e.b0 ≠ 4), if_neg (by omega : ¬ e.b5 ≠ 0)]
  by_cases h1 : e.b1 % 2 ≠ 0
  · rw [if_pos h1]
  · rw [if_neg h1]

/-- After a nonempty sequence of well formed extensions, the stored
transparency flag is the one of the last extension. -/
theorem processGceList_last_ht (g : Bool) : ∀ (exts : List GceBytes) (st : GifPalState),
    exts ≠ [] → (∀ x ∈ exts, x.b0 = 4 ∧ x.b5 = 0) →
    (processGceList g st exts).has_transparency = (lastGce exts).b1 % 2 := by
  intro exts
  induction exts with
  | nil => intro st hne _; exact absurd rfl hne
  | cons e rest ih =>
    intro st _ hwf
    cases rest with
    | nil =>
      show (iwgif_read_graphics_control_ext g st e).2.has_transparency = (lastGce [e]).b1 % 2
      have hw := hwf e (by simp)
      rw [gce_wf_ht g e st hw.1 hw.2]
      rfl
    | cons e2 rest2 =>
      show (processGceList g (iwgif_read_graphics_control_ext g st e).2
          (e2 :: rest2)).has_transparency = (lastGce (e :: e2 :: rest2)).b1 % 2
      rw [ih _ (by simp) (fun y hy => hwf y (by simp [hy]))]
      rfl

/-- Every transparency index declared by a flag setting extension of the
sequence has its alpha byte zeroed in the final state. -/
theorem processGceList_alpha_zero (g : Bool) : ∀ (exts : List GceBytes) (st : GifPalState)
    (e : GceBytes), e ∈ exts → e.b1 % 2 = 1 → (∀ x ∈ exts, x.b0 = 4 ∧ x.b5 = 0) →
    (processGceList g st exts).alpha e.b4 = 0 := by
  intro exts
  induction exts with
  | nil => intro st e he _ _; exact absurd he (List.not_mem_nil e)
  | cons x rest ih =>
    intro st e he hef hwf
    rcases List.mem_cons.mp he with he | he
    · subst he
      show (processGceList g (iwgif_read_graphics_control_ext g st e).2 rest).alpha e.b4 = 0
      apply processGceList_alpha_mono
      have hw := hwf e (by simp)
      unfold iwgif_read_graphics_control_ext
      rw [if_neg (by omega : ¬ e.b0 ≠ 4), if_neg (by omega : ¬ e.b5 ≠ 0),
        if_pos (by omega : e.b1 % 2 ≠ 0)]
      show zeroAlpha st.alpha e.b4 e.b4 = 0
      unfold zeroAlpha
      rw [if_pos rfl]
    · show (processGceList g (iwgif_read_graphics_control_ext g st x).2 rest).alpha e.b4 = 0
      exact ih _ e he hef (fun y hy => hwf y (by simp [hy]))

/-- Claim C10: after a nonempty sequence of well formed graphics control
extensions, the channel count that iwgif_init_screen will pick (4 for
RGBA, 3 for RGB) is decided solely by the transparency flag of the last
extension, while the alpha byte of every palette entry named as a
transparency index by any flag setting extension of the sequence stays 0:
the zeroing is never undone by a later extension. -/
theorem C10_last_extension_decides (g : Bool) (st : GifPalState) (exts : List GceBytes)
    (e : GceBytes)
    (hwf : ∀ x ∈ exts, x.b0 = 4 ∧ x.b5 = 0)
    (hne : exts ≠ [])
    (he : e ∈ exts) (hef : e.b1 % 2 = 1) :
    (processGceList g st exts).has_transparency = (lastGce exts).b1 % 2 ∧
    iwgif_init_screen_bpp (processGceList g st exts) =
      (if (lastGce exts).b1 % 2 ≠ 0 then 4 else 3) ∧
    (processGceList g st exts).alpha e.b4 = 0 := by
  refine ⟨processGceList_last_ht g exts st hne hwf, ?_,
    processGceList_alpha_zero g exts st e he hef hwf⟩
  unfold iwgif_init_screen_bpp
  rw [processGceList_last_ht g exts st hne hwf]

/-- Witness for claim C10: two well formed extensions, the first setting
transparency index 5, the last clearing the flag; the final state keeps
alpha 0 at index 5 while the channel count follows the last flag (RGB). -/
theorem C10_last_extension_decides_witness :
    (processGceList false gpal0 [⟨4, 1, 0, 0, 5, 0⟩, ⟨4, 0, 0, 0, 7, 0⟩]).has_transparency =
      (lastGce [⟨4, 1, 0, 0, 5, 0⟩, ⟨4, 0, 0, 0, 7, 0⟩]).b1 % 2 ∧
    iwgif_init_screen_bpp (processGceList false gpal0 [⟨4, 1, 0, 0, 5, 0⟩, ⟨4, 0, 0, 0, 7, 0⟩]) =
      (if (lastGce [⟨4, 1, 0, 0, 5, 0⟩, ⟨4, 0, 0, 0, 7, 0⟩]).b1 % 2 ≠ 0 then 4 else 3) ∧
    (processGceList false gpal0 [⟨4, 1, 0, 0, 5, 0⟩, ⟨4, 0, 0, 0, 7, 0⟩]).alpha 5 = 0 :=
  C10_last_extension_decides false gpal0 [⟨4, 1, 0, 0, 5, 0⟩, ⟨4, 0, 0, 0, 7, 0⟩]
    ⟨4, 1, 0, 0, 5, 0⟩ (by decide) (by decide) (by decide) (by decide)
